import Mathlib

/-!
Shallow embedding of `scripts/parse_logs.py`: a one-pass log scraper that
scans sorted debug-log files for `recv udp tag 2` event headers, skips an
optional size-annotation line, decodes the following hex-dump lines, and
emits at most 3 base64-encoded records.
-/

namespace ParseLogs

/-- ASCII decimal digit, the `\d` class of the script's patterns
(log lines are ASCII). -/
def isDigit (c : Char) : Bool := 48 ≤ c.toNat && c.toNat ≤ 57

/-- The `[0-9a-f]` character class of `hex_re` and `byte_re`
(lowercase letters only). -/
def isLowerHex (c : Char) : Bool := isDigit c || (97 ≤ c.toNat && c.toNat ≤ 102)

/-- Value of one lowercase hexadecimal digit, as in Python `int(b, 16)`. -/
def hexVal (c : Char) : Nat := if c.toNat ≤ 57 then c.toNat - 48 else c.toNat - 87

/-- Match a list of single-character tests against the start of a
character list. -/
def checkShape : List (Char → Bool) → List Char → Bool
  | [], _ => true
  | _ :: _, [] => false
  | p :: ps, c :: cs => p c && checkShape ps cs

/-- Character shape of the 19-character timestamp
`\d{4}/\d{2}/\d{2} \d{2}:\d{2}:\d{2}` shared by `event_re` and `size_re`. -/
def tsShape : List (Char → Bool) :=
  [isDigit, isDigit, isDigit, isDigit, fun c => c == '/',
   isDigit, isDigit, fun c => c == '/', isDigit, isDigit, fun c => c == ' ',
   isDigit, isDigit, fun c => c == ':', isDigit, isDigit, fun c => c == ':',
   isDigit, isDigit]

/-- Parse the timestamp group at the start of a line (19 characters). -/
def parseTS (cs : List Char) : Option (String × List Char) :=
  if checkShape tsShape cs then some (String.mk (cs.take 19), cs.drop 19) else none

/-- Consume an exact literal at the start of the remaining characters. -/
def parseLit (lit : List Char) (cs : List Char) : Option (List Char) :=
  if cs.take lit.length = lit then some (cs.drop lit.length) else none

/-- The `(send|recv)` alternation group. -/
def parseDir (cs : List Char) : Option (String × List Char) :=
  if cs.take 4 = ("send".toList) then some ("send", cs.drop 4)
  else if cs.take 4 = ("recv".toList) then some ("recv", cs.drop 4)
  else none

/-- The `(tcp|udp)` alternation group. -/
def parseProto (cs : List Char) : Option (String × List Char) :=
  if cs.take 3 = ("tcp".toList) then some ("tcp", cs.drop 3)
  else if cs.take 3 = ("udp".toList) then some ("udp", cs.drop 3)
  else none

/-- A maximal nonempty run of decimal digits, the `(\d+)` group.
(The regex's greedy `\d+` is equivalent to maximal munch here because the
character after each digit group is never a digit.) -/
def parseDigits (cs : List Char) : Option (String × List Char) :=
  let ds := cs.takeWhile isDigit
  if ds.isEmpty then none else some (String.mk ds, cs.dropWhile isDigit)

/-- `event_re.match` on one line: `^(\d{4}/\d{2}/\d{2} \d{2}:\d{2}:\d{2})
(send|recv) (tcp|udp) tag (\d+) len (\d+)`, returning the five groups
(timestamp, direction, protocol, tag, length). -/
def eventMatchL (cs : List Char) : Option (String × String × String × String × String) := do
  let (ts, r1) ← parseTS cs
  let r2 ← parseLit ([' ']) r1
  let (d, r3) ← parseDir r2
  let r4 ← parseLit ([' ']) r3
  let (p, r5) ← parseProto r4
  let r6 ← parseLit (" tag ".toList) r5
  let (tg, r7) ← parseDigits r6
  let r8 ← parseLit (" len ".toList) r7
  let (ln, _) ← parseDigits r8
  pure (ts, d, p, tg, ln)

/-- Whether `size_re.match` succeeds on one line:
`^\d{4}/\d{2}/\d{2} \d{2}:\d{2}:\d{2} (send|recv) \d+ bytes`. -/
def sizeMatchL (cs : List Char) : Bool :=
  (do
    let (_, r1) ← parseTS cs
    let r2 ← parseLit ([' ']) r1
    let (_, r3) ← parseDir r2
    let r4 ← parseLit ([' ']) r3
    let (_, r5) ← parseDigits r4
    let _ ← parseLit (" bytes".toList) r5
    pure () : Option Unit).isSome

/-- Whether `hex_re.match` succeeds on one line: `^[0-9a-f]{8}`. -/
def hexMatchL : List Char → Bool
  | c0 :: c1 :: c2 :: c3 :: c4 :: c5 :: c6 :: c7 :: _ =>
    isLowerHex c0 && isLowerHex c1 && isLowerHex c2 && isLowerHex c3 &&
    isLowerHex c4 && isLowerHex c5 && isLowerHex c6 && isLowerHex c7
  | _ => false

/-- `[int(b, 16) for b in byte_re.findall(line)]`: left-to-right
non-overlapping scan for `([0-9a-f]{2})`, decoding each pair. -/
def byteFindallL : List Char → List Nat
  | c1 :: c2 :: rest =>
    if isLowerHex c1 && isLowerHex c2 then
      (hexVal c1 * 16 + hexVal c2) :: byteFindallL rest
    else byteFindallL (c2 :: rest)
  | _ => []

/-- `event_re.match` on a line given as a string. -/
def eventMatch (s : String) : Option (String × String × String × String × String) :=
  eventMatchL s.toList

/-- `size_re.match` success on a line given as a string. -/
def sizeMatch (s : String) : Bool := sizeMatchL s.toList

/-- `hex_re.match` success on a line given as a string. -/
def hexMatch (s : String) : Bool := hexMatchL s.toList

/-- Decoded `byte_re` pairs of a line given as a string. -/
def byteFindall (s : String) : List Nat := byteFindallL s.toList

/-- The standard base64 alphabet used by `base64.b64encode`. -/
def b64Table : List Char :=
  ("ABCDEFGHIJKLMNOPQRSTUVWXYZabcdefghijklmnopqrstuvwxyz0123456789+/".toList)

/-- Character of the base64 alphabet at a 6-bit index. -/
def b64Char (n : Nat) : Char := b64Table.getD n 'A'

/-- Base64 of a byte list, 3 bytes at a time, with `=` padding. -/
def b64Chars : List Nat → List Char
  | a :: b :: c :: rest =>
    b64Char ((a * 65536 + b * 256 + c) / 262144 % 64) ::
    b64Char ((a * 65536 + b * 256 + c) / 4096 % 64) ::
    b64Char ((a * 65536 + b * 256 + c) / 64 % 64) ::
    b64Char ((a * 65536 + b * 256 + c) % 64) :: b64Chars rest
  | [a, b] =>
    [b64Char ((a * 256 + b) / 1024), b64Char ((a * 256 + b) / 16 % 64),
     b64Char ((a * 256 + b) % 16 * 4), '=']
  | [a] => [b64Char (a / 4), b64Char (a % 4 * 16), '=', '=']
  | [] => []

/-- `base64.b64encode(data).decode('ascii')`. -/
def b64encode (bs : List Nat) : String := String.mk (b64Chars bs)

/-- One extracted output record: `{'timestamp': ts, 'data': base64}`. -/
structure Record where
  timestamp : String
  data : String
deriving DecidableEq

/-- Number of leading lines consumed by the hex-dump inner loop
(`while i < len(lines) and hex_re.match(lines[i])`). -/
def hexCount : List String → Nat
  | [] => 0
  | l :: rest => if hexMatch l then hexCount rest + 1 else 0

/-- Bytes accumulated by the hex-dump inner loop over the leading run of
hex lines. -/
def hexBytes : List String → List Nat
  | [] => []
  | l :: rest => if hexMatch l then byteFindall l ++ hexBytes rest else []

/-- Number of lines (0 or 1) consumed by the optional size-annotation
check after a qualifying header. -/
def sizeSkipCount : List String → Nat
  | [] => 0
  | l :: _ => if sizeMatch l then 1 else 0

/-- Remaining lines after the optional size-annotation skip. -/
def skipSize (ls : List String) : List String := ls.drop (sizeSkipCount ls)

/-- Whether a line is a qualifying event header:
parses via `event_re` with `direction == 'recv'`, `proto == 'udp'`,
`tag == '2'`. -/
def isQualifying (l : String) : Bool :=
  match eventMatch l with
  | some (_, d, p, tg, _) => d == "recv" && p == "udp" && tg == "2"
  | none => false

/-- Number of qualifying event-header lines in a file. -/
def countQual (lines : List String) : Nat := (lines.filter isQualifying).length

/-- The script's per-file scanning loop, without the record cap: one
record per qualifying header, in line order. -/
def runAll : List String → List Record
  | [] => []
  | l :: rest =>
    match eventMatch l with
    | none => runAll rest
    | some (ts, d, p, tg, _) =>
      if d == "recv" && p == "udp" && tg == "2" then
        ⟨ts, b64encode (hexBytes (skipSize rest))⟩ ::
        runAll ((skipSize rest).drop (hexCount (skipSize rest)))
      else runAll rest
termination_by ls => ls.length
decreasing_by all_goals (simp [skipSize, List.length_drop]; try omega)

/-- The script's per-file scanning loop (`while i < len(lines) and
len(output) < 3`), threading the global output list. -/
def runCap : List String → List Record → List Record
  | [], out => out
  | l :: rest, out =>
    if 3 ≤ out.length then out
    else
      match eventMatch l with
      | none => runCap rest out
      | some (ts, d, p, tg, _) =>
        if d == "recv" && p == "udp" && tg == "2" then
          runCap ((skipSize rest).drop (hexCount (skipSize rest)))
            (out ++ [⟨ts, b64encode (hexBytes (skipSize rest))⟩])
        else runCap rest out
termination_by ls out => ls.length
decreasing_by all_goals (simp [skipSize, List.length_drop]; try omega)

/-- The script's file loop over the (already sorted) file contents. -/
def runFiles : List (List String) → List Record → List Record
  | [], out => out
  | f :: fs, out => runFiles fs (runCap f out)

/-- The file loop with the `open`/`readlines` step made explicit: an
unreadable file (`Except.error`) aborts the run, as an uncaught `IOError`
does. Every file in the list is opened, regardless of the record cap. -/
def runFilesIO : List (Except Unit (List String)) → List Record → Except Unit (List Record)
  | [], out => Except.ok out
  | Except.error e :: _, _ => Except.error e
  | Except.ok lines :: fs, out => runFilesIO fs (runCap lines out)

/-- Lexicographic order on character lists by code point, as Python's
string comparison used by `sorted`. -/
def listLe : List Char → List Char → Bool
  | [], _ => true
  | _ :: _, [] => false
  | a :: as, b :: bs =>
    if a.toNat < b.toNat then true
    else if b.toNat < a.toNat then false
    else listLe as bs

/-- `a <= b` on file names, as Python's `sorted` compares paths. -/
def strLe (a b : String) : Bool := listLe a.toList b.toList

/-- Insertion step of sorting the globbed paths by name. -/
def insertByName {α : Type} (f : String × α) : List (String × α) → List (String × α)
  | [] => [f]
  | g :: gs => if strLe f.1 g.1 then f :: g :: gs else g :: insertByName f gs

/-- `sorted(glob.glob(...))`: the discovered files ordered by path name. -/
def sortFiles {α : Type} : List (String × α) → List (String × α)
  | [] => []
  | f :: fs => insertByName f (sortFiles fs)

/-- The whole script on an in-memory file system: each input file is a
named list of lines; files are processed in sorted name order and the
final `output` list is returned (what the script serializes as JSON). -/
def parse_logs (files : List (String × List String)) : List Record :=
  runFiles ((sortFiles files).map Prod.snd) []

/-- The whole script with fallible file opening: each named file either
reads to its lines or fails (`Except.error ()`), and the first failure,
in sorted order, aborts the run. -/
def parse_logs_io (files : List (String × Except Unit (List String))) :
    Except Unit (List Record) :=
  runFilesIO ((sortFiles files).map Prod.snd) []

/-- Modelled from the spec: "hexadecimal characters (regardless of letter
case)" — a hex-digit test accepting uppercase `A`–`F` as well, used only
to state the spec's case-insensitive reading of the hex-line test. -/
def specHexAnyCase (c : Char) : Bool :=
  isLowerHex c || (65 ≤ c.toNat && c.toNat ≤ 70)

/-! ### Equation and helper lemmas -/

theorem runAll_nil : runAll [] = [] := by
  simp [runAll]

theorem runAll_cons_none (l : String) (rest : List String)
    (h : eventMatch l = none) : runAll (l :: rest) = runAll rest := by
  rw [runAll, h]

theorem runAll_cons_qual (l : String) (rest : List String)
    (ts d p tg ln : String) (h : eventMatch l = some (ts, d, p, tg, ln))
    (hq : (d == "recv" && p == "udp" && tg == "2") = true) :
    runAll (l :: rest) =
      ⟨ts, b64encode (hexBytes (skipSize rest))⟩ ::
        runAll ((skipSize rest).drop (hexCount (skipSize rest))) := by
  rw [runAll, h]
  simp [hq]

theorem runAll_cons_notqual (l : String) (rest : List String)
    (ts d p tg ln : String) (h : eventMatch l = some (ts, d, p, tg, ln))
    (hq : (d == "recv" && p == "udp" && tg == "2") = false) :
    runAll (l :: rest) = runAll rest := by
  rw [runAll, h]
  simp [hq]

theorem runCap_nil (out : List Record) : runCap [] out = out := by
  simp [runCap]

theorem runCap_cons_full (l : String) (rest : List String) (out : List Record)
    (h : 3 ≤ out.length) : runCap (l :: rest) out = out := by
  rw [runCap]
  simp [h]

theorem runCap_cons_none (l : String) (rest : List String) (out : List Record)
    (h3 : ¬ 3 ≤ out.length) (h : eventMatch l = none) :
    runCap (l :: rest) out = runCap rest out := by
  rw [runCap, h]
  simp [h3]

theorem runCap_cons_qual (l : String) (rest : List String) (out : List Record)
    (ts d p tg ln : String) (h3 : ¬ 3 ≤ out.length)
    (h : eventMatch l = some (ts, d, p, tg, ln))
    (hq : (d == "recv" && p == "udp" && tg == "2") = true) :
    runCap (l :: rest) out =
      runCap ((skipSize rest).drop (hexCount (skipSize rest)))
        (out ++ [⟨ts, b64encode (hexBytes (skipSize rest))⟩]) := by
  rw [runCap, h]
  simp [h3, hq]

theorem runCap_cons_notqual (l : String) (rest : List String) (out : List Record)
    (ts d p tg ln : String) (h3 : ¬ 3 ≤ out.length)
    (h : eventMatch l = some (ts, d, p, tg, ln))
    (hq : (d == "recv" && p == "udp" && tg == "2") = false) :
    runCap (l :: rest) out = runCap rest out := by
  rw [runCap, h]
  simp [h3, hq]

theorem runCap_eq_aux (n : Nat) :
    ∀ (ls : List String) (out : List Record), ls.length ≤ n →
      runCap ls out = out ++ (runAll ls).take (3 - out.length) := by
  induction n with
  | zero =>
    intro ls out h
    have hls : ls = [] := List.eq_nil_of_length_eq_zero (Nat.le_zero.mp h)
    subst hls
    simp [runCap_nil, runAll_nil]
  | succ n ih =>
    intro ls out h
    cases ls with
    | nil => simp [runCap_nil, runAll_nil]
    | cons l rest =>
      by_cases h3 : 3 ≤ out.length
      · rw [runCap_cons_full l rest out h3]
        have h0 : 3 - out.length = 0 := by omega
        simp [h0]
      · have hrest : rest.length ≤ n := by
          simp only [List.length_cons] at h
          omega
        cases hev : eventMatch l with
        | none =>
          rw [runCap_cons_none l rest out h3 hev, runAll_cons_none l rest hev]
          exact ih rest out hrest
        | some g =>
          obtain ⟨ts, d, p, tg, ln⟩ := g
          by_cases hq : (d == "recv" && p == "udp" && tg == "2") = true
          · rw [runCap_cons_qual l rest out ts d p tg ln h3 hev hq,
              runAll_cons_qual l rest ts d p tg ln hev hq]
            have hlen : ((skipSize rest).drop (hexCount (skipSize rest))).length ≤ n := by
              simp only [skipSize, List.length_drop]
              omega
            rw [ih _ _ hlen]
            obtain ⟨k, hk⟩ : ∃ k, 3 - out.length = k + 1 :=
              ⟨3 - out.length - 1, by omega⟩
            have h1 : 3 - (out.length + 1) = k := by omega
            simp [hk, h1, List.take_succ_cons]
          · rw [runCap_cons_notqual l rest out ts d p tg ln h3 hev
                (Bool.not_eq_true _ ▸ hq),
              runAll_cons_notqual l rest ts d p tg ln hev
                (Bool.not_eq_true _ ▸ hq)]
            exact ih rest out hrest

theorem runCap_eq (ls : List String) (out : List Record) :
    runCap ls out = out ++ (runAll ls).take (3 - out.length) :=
  runCap_eq_aux ls.length ls out le_rfl

theorem runFiles_eq (fs : List (List String)) :
    ∀ out, runFiles fs out = out ++ ((fs.map runAll).flatten).take (3 - out.length) := by
  induction fs with
  | nil => intro out; simp [runFiles]
  | cons f fs ih =>
    intro out
    show runFiles fs (runCap f out) = _
    rw [ih, runCap_eq, List.append_assoc, List.map_cons, List.flatten_cons,
      List.take_append_eq_append_take]
    have harith : 3 - (out ++ (runAll f).take (3 - out.length)).length =
        3 - out.length - (runAll f).length := by
      simp only [List.length_append, List.length_take]
      omega
    rw [harith]

theorem insertByName_perm {α : Type} (f : String × α) (gs : List (String × α)) :
    (insertByName f gs).Perm (f :: gs) := by
  induction gs with
  | nil => simp [insertByName]
  | cons g gs ih =>
    rw [insertByName]
    by_cases h : strLe f.1 g.1
    · simp [h]
    · simp only [h, if_false]
      exact (ih.cons g).trans (List.Perm.swap f g gs)

theorem sortFiles_perm {α : Type} (fs : List (String × α)) :
    (sortFiles fs).Perm fs := by
  induction fs with
  | nil => simp [sortFiles]
  | cons f fs ih =>
    exact (insertByName_perm f (sortFiles fs)).trans (ih.cons f)

theorem isLowerHex_ne_slash (c : Char) (h : isLowerHex c = true) :
    (c == '/') = false := by
  by_cases hc : c = '/'
  · subst hc
    exact absurd h (by decide)
  · exact beq_eq_false_iff_ne.mpr hc

theorem checkShape_false_of_hex (cs : List Char) (h : hexMatchL cs = true) :
    checkShape tsShape cs = false := by
  match cs with
  | [] => simp [hexMatchL] at h
  | [c0] => simp [hexMatchL] at h
  | [c0, c1] => simp [hexMatchL] at h
  | [c0, c1, c2] => simp [hexMatchL] at h
  | [c0, c1, c2, c3] => simp [hexMatchL] at h
  | [c0, c1, c2, c3, c4] => simp [hexMatchL] at h
  | [c0, c1, c2, c3, c4, c5] => simp [hexMatchL] at h
  | [c0, c1, c2, c3, c4, c5, c6] => simp [hexMatchL] at h
  | c0 :: c1 :: c2 :: c3 :: c4 :: c5 :: c6 :: c7 :: t =>
    simp only [hexMatchL, Bool.and_eq_true, and_assoc] at h
    obtain ⟨h0, h1, h2, h3, h4, h5, h6, h7⟩ := h
    simp [checkShape, tsShape, isLowerHex_ne_slash c4 h4]

theorem parseTS_none_of_hex (cs : List Char) (h : hexMatchL cs = true) :
    parseTS cs = none := by
  simp [parseTS, checkShape_false_of_hex cs h]

theorem eventMatchL_none_of_hex (cs : List Char) (h : hexMatchL cs = true) :
    eventMatchL cs = none := by
  simp [eventMatchL, parseTS_none_of_hex cs h]

theorem sizeMatchL_false_of_hex (cs : List Char) (h : hexMatchL cs = true) :
    sizeMatchL cs = false := by
  simp [sizeMatchL, parseTS_none_of_hex cs h]

theorem hexMatchL_false_of_size (cs : List Char) (h : sizeMatchL cs = true) :
    hexMatchL cs = false := by
  by_contra hx
  rw [Bool.not_eq_false] at hx
  rw [sizeMatchL_false_of_hex cs hx] at h
  exact Bool.false_ne_true h

theorem parseDigits_head_digit (cs : List Char) (x : String × List Char)
    (h : parseDigits cs = some x) : ∃ c t, cs = c :: t ∧ isDigit c = true := by
  cases cs with
  | nil => simp [parseDigits] at h
  | cons c t =>
    refine ⟨c, t, rfl, ?_⟩
    by_cases hd : isDigit c
    · exact hd
    · simp [parseDigits, List.takeWhile_cons, hd] at h

theorem parseProto_none_of_digit (c : Char) (t : List Char)
    (h : isDigit c = true) : parseProto (c :: t) = none := by
  have hct : c ≠ 't' := fun he => absurd (he ▸ h) (by decide)
  have hcu : c ≠ 'u' := fun he => absurd (he ▸ h) (by decide)
  simp [parseProto, hct, hcu]

theorem eventMatchL_none_of_size (cs : List Char) (h : sizeMatchL cs = true) :
    eventMatchL cs = none := by
  rw [sizeMatchL] at h
  obtain ⟨u, hu⟩ := Option.isSome_iff_exists.mp h
  simp only [bind, Option.bind_eq_some] at hu
  obtain ⟨⟨ts0, r1⟩, hts, ⟨r2, hr2, ⟨⟨d0, r3⟩, hd, ⟨r4, hr4, ⟨⟨ds, r5⟩, hds, _⟩⟩⟩⟩⟩ := hu
  obtain ⟨c, t, hct, hdig⟩ := parseDigits_head_digit r4 _ hds
  rw [hct] at hr4
  simp [eventMatchL, hts, hr2, hd, hr4, hct, parseProto_none_of_digit c t hdig]

theorem isQualifying_false_of_hex (l : String) (h : hexMatch l = true) :
    isQualifying l = false := by
  rw [hexMatch] at h
  have he : eventMatchL l.data = none := eventMatchL_none_of_hex l.toList h
  simp [isQualifying, eventMatch, String.toList, he]

theorem isQualifying_false_of_size (l : String) (h : sizeMatch l = true) :
    isQualifying l = false := by
  rw [sizeMatch] at h
  have he : eventMatchL l.data = none := eventMatchL_none_of_size l.toList h
  simp [isQualifying, eventMatch, String.toList, he]

theorem countQual_cons (l : String) (ls : List String) :
    countQual (l :: ls) = (if isQualifying l then 1 else 0) + countQual ls := by
  by_cases h : isQualifying l <;> simp [countQual, List.filter_cons, h] <;> omega

theorem countQual_drop_hex (ls : List String) :
    countQual (ls.drop (hexCount ls)) = countQual ls := by
  induction ls with
  | nil => rfl
  | cons l rest ih =>
    by_cases h : hexMatch l
    · rw [show hexCount (l :: rest) = hexCount rest + 1 by simp [hexCount, h],
        show (l :: rest).drop (hexCount rest + 1) = rest.drop (hexCount rest) from rfl,
        ih, countQual_cons, isQualifying_false_of_hex l h]
      simp
    · rw [show hexCount (l :: rest) = 0 by simp [hexCount, h]]
      rfl

theorem countQual_skipSize (ls : List String) :
    countQual (skipSize ls) = countQual ls := by
  cases ls with
  | nil => rfl
  | cons l rest =>
    by_cases h : sizeMatch l
    · rw [show skipSize (l :: rest) = rest by simp [skipSize, sizeSkipCount, h],
        countQual_cons, isQualifying_false_of_size l h]
      simp
    · rw [show skipSize (l :: rest) = l :: rest by simp [skipSize, sizeSkipCount, h]]

theorem isQualifying_true_of_qual (l : String) (ts d p tg ln : String)
    (hev : eventMatch l = some (ts, d, p, tg, ln))
    (hq : (d == "recv" && p == "udp" && tg == "2") = true) :
    isQualifying l = true := by
  simp [isQualifying, hev, hq]

theorem isQualifying_false_of_notqual (l : String) (ts d p tg ln : String)
    (hev : eventMatch l = some (ts, d, p, tg, ln))
    (hq : (d == "recv" && p == "udp" && tg == "2") = false) :
    isQualifying l = false := by
  simp [isQualifying, hev, hq]

theorem isQualifying_false_of_none (l : String)
    (hev : eventMatch l = none) : isQualifying l = false := by
  simp [isQualifying, hev]

theorem runAll_length_aux (n : Nat) :
    ∀ ls : List String, ls.length ≤ n → (runAll ls).length = countQual ls := by
  induction n with
  | zero =>
    intro ls h
    have hls : ls = [] := List.eq_nil_of_length_eq_zero (Nat.le_zero.mp h)
    subst hls
    simp [runAll_nil, countQual]
  | succ n ih =>
    intro ls h
    cases ls with
    | nil => simp [runAll_nil, countQual]
    | cons l rest =>
      have hrest : rest.length ≤ n := by
        simp only [List.length_cons] at h
        omega
      cases hev : eventMatch l with
      | none =>
        rw [runAll_cons_none l rest hev, countQual_cons,
          isQualifying_false_of_none l hev, ih rest hrest]
        simp
      | some g =>
        obtain ⟨ts, d, p, tg, ln⟩ := g
        by_cases hq : (d == "recv" && p == "udp" && tg == "2") = true
        · have hcq : countQual (l :: rest) = 1 + countQual rest := by
            rw [countQual_cons, isQualifying_true_of_qual l ts d p tg ln hev hq]
            simp
          have hlen : ((skipSize rest).drop (hexCount (skipSize rest))).length ≤ n := by
            simp only [skipSize, List.length_drop]
            omega
          rw [runAll_cons_qual l rest ts d p tg ln hev hq, hcq, List.length_cons,
            ih _ hlen, countQual_drop_hex, countQual_skipSize]
          omega
        · rw [runAll_cons_notqual l rest ts d p tg ln hev (Bool.not_eq_true _ ▸ hq),
            countQual_cons,
            isQualifying_false_of_notqual l ts d p tg ln hev (Bool.not_eq_true _ ▸ hq),
            ih rest hrest]
          simp

theorem runAll_length (ls : List String) : (runAll ls).length = countQual ls :=
  runAll_length_aux ls.length ls le_rfl

theorem runAll_sources_aux (n : Nat) :
    ∀ ls : List String, ls.length ≤ n → ∀ r ∈ runAll ls,
      ∃ l ∈ ls, ∃ ln, eventMatch l = some (r.timestamp, "recv", "udp", "2", ln) := by
  induction n with
  | zero =>
    intro ls h
    have hls : ls = [] := List.eq_nil_of_length_eq_zero (Nat.le_zero.mp h)
    subst hls
    intro r hr
    exact absurd hr (by simp [runAll_nil])
  | succ n ih =>
    intro ls h
    cases ls with
    | nil => intro r hr; exact absurd hr (by simp [runAll_nil])
    | cons l rest =>
      have hrest : rest.length ≤ n := by
        simp only [List.length_cons] at h
        omega
      intro r hr
      cases hev : eventMatch l with
      | none =>
        rw [runAll_cons_none l rest hev] at hr
        obtain ⟨l', hl', hsrc⟩ := ih rest hrest r hr
        exact ⟨l', List.mem_cons_of_mem l hl', hsrc⟩
      | some g =>
        obtain ⟨ts, d, p, tg, ln⟩ := g
        by_cases hq : (d == "recv" && p == "udp" && tg == "2") = true
        · rw [runAll_cons_qual l rest ts d p tg ln hev hq] at hr
          rcases List.mem_cons.mp hr with hr | hr
          · refine ⟨l, List.mem_cons_self l rest, ln, ?_⟩
            obtain ⟨hd, hp, htg⟩ : d = "recv" ∧ p = "udp" ∧ tg = "2" := by
              simpa [Bool.and_eq_true, and_assoc] using hq
            rw [hr]
            rw [hd, hp, htg] at hev
            exact hev
          · have hlen : ((skipSize rest).drop (hexCount (skipSize rest))).length ≤ n := by
              simp only [skipSize, List.length_drop]
              omega
            obtain ⟨l', hl', hsrc⟩ := ih _ hlen r hr
            have hl'rest : l' ∈ rest := by
              have h1 : l' ∈ skipSize rest := List.drop_subset _ _ hl'
              exact List.drop_subset _ _ h1
            exact ⟨l', List.mem_cons_of_mem l hl'rest, hsrc⟩
        · rw [runAll_cons_notqual l rest ts d p tg ln hev (Bool.not_eq_true _ ▸ hq)] at hr
          obtain ⟨l', hl', hsrc⟩ := ih rest hrest r hr
          exact ⟨l', List.mem_cons_of_mem l hl', hsrc⟩

theorem runAll_sources (ls : List String) :
    ∀ r ∈ runAll ls,
      ∃ l ∈ ls, ∃ ln, eventMatch l = some (r.timestamp, "recv", "udp", "2", ln) :=
  runAll_sources_aux ls.length ls le_rfl

theorem isLowerHex_iff (c : Char) :
    isLowerHex c = true ↔
      (48 ≤ c.toNat ∧ c.toNat ≤ 57) ∨ (97 ≤ c.toNat ∧ c.toNat ≤ 102) := by
  simp [isLowerHex, isDigit, Bool.or_eq_true, Bool.and_eq_true, decide_eq_true_eq]

theorem hexMatchL_iff (cs : List Char) :
    hexMatchL cs = true ↔ 8 ≤ cs.length ∧ ∀ c ∈ cs.take 8, isLowerHex c = true := by
  match cs with
  | [] => simp [hexMatchL]
  | [c0] => simp [hexMatchL]
  | [c0, c1] => simp [hexMatchL]
  | [c0, c1, c2] => simp [hexMatchL]
  | [c0, c1, c2, c3] => simp [hexMatchL]
  | [c0, c1, c2, c3, c4] => simp [hexMatchL]
  | [c0, c1, c2, c3, c4, c5] => simp [hexMatchL]
  | [c0, c1, c2, c3, c4, c5, c6] => simp [hexMatchL]
  | c0 :: c1 :: c2 :: c3 :: c4 :: c5 :: c6 :: c7 :: t =>
    simp only [hexMatchL, Bool.and_eq_true, and_assoc, List.length_cons]
    constructor
    · rintro ⟨h0, h1, h2, h3, h4, h5, h6, h7⟩
      refine ⟨by omega, ?_⟩
      intro c hc
      simp only [List.take_succ_cons, List.take_zero, List.mem_cons,
        List.not_mem_nil, or_false] at hc
      rcases hc with h | h | h | h | h | h | h | h <;> subst h <;> assumption
    · rintro ⟨-, hall⟩
      simp only [List.take_succ_cons, List.take_zero, List.mem_cons,
        List.not_mem_nil, or_false] at hall
      exact ⟨hall _ (by tauto), hall _ (by tauto), hall _ (by tauto),
        hall _ (by tauto), hall _ (by tauto), hall _ (by tauto),
        hall _ (by tauto), hall _ (by tauto)⟩

theorem hexBytes_eq_nil_of_hexCount_eq_zero (ls : List String)
    (h : hexCount ls = 0) : hexBytes ls = [] := by
  cases ls with
  | nil => rfl
  | cons l rest =>
    by_cases hx : hexMatch l
    · rw [show hexCount (l :: rest) = hexCount rest + 1 from by simp [hexCount, hx]] at h
      exact absurd h (by omega)
    · simp [hexBytes, hx]

theorem runFilesIO_error (fs : List (Except Unit (List String))) :
    ∀ out, Except.error () ∈ fs → runFilesIO fs out = Except.error () := by
  induction fs with
  | nil => intro out h; cases h
  | cons e fs ih =>
    intro out h
    cases e with
    | error u => cases u; rfl
    | ok lines =>
      have h2 : Except.error () ∈ fs := by
        rcases List.mem_cons.mp h with h | h
        · exact absurd h (by simp)
        · exact h
      exact ih (runCap lines out) h2

theorem parse_logs_eq (files : List (String × List String)) :
    parse_logs files =
      ((((sortFiles files).map Prod.snd).map runAll).flatten).take 3 := by
  show runFiles _ [] = _
  rw [runFiles_eq]
  simp

theorem parse_logs_single (nm : String) (lines : List String) :
    parse_logs [(nm, lines)] = (runAll lines).take 3 := by
  rw [parse_logs_eq]
  rw [show ((sortFiles [(nm, lines)]).map Prod.snd).map runAll = [runAll lines] from rfl]
  simp

/-! ### Claim theorems -/

/-- C1 (counterexample): on the spec's example scenario — a non-matching
`send tcp tag 1` header, a matching `recv udp tag 2 len 2` header, a size
line, and the hex line `00000000  ab cd` — the script's single output
record has data `"AAAAAKvN"`, not `"q80="`: the pair scan decodes the
offset prefix `00000000` into four zero bytes as well, so the accumulator
is not just `0xAB 0xCD`. -/
theorem c1_counterexample :
    parse_logs [("go_client/debug-1.log",
      ["2024/01/02 03:04:05 send tcp tag 1 len 4",
       "2024/01/02 03:04:06 recv udp tag 2 len 2",
       "2024/01/02 03:04:06 recv 2 bytes",
       "00000000  ab cd"])] =
      [⟨"2024/01/02 03:04:06", "AAAAAKvN"⟩] ∧
    hexBytes (["00000000  ab cd"]) = [0, 0, 0, 0, 171, 205] ∧
    b64encode [171, 205] = "q80=" ∧
    ("AAAAAKvN" : String) ≠ "q80=" := by
  refine ⟨?_, by decide, by decide, by decide⟩
  rw [parse_logs_single]
  rw [runAll_cons_notqual _ _ "2024/01/02 03:04:05" "send" "tcp" "1" "4"
    (by decide) (by decide)]
  rw [runAll_cons_qual _ _ "2024/01/02 03:04:06" "recv" "udp" "2" "2"
    (by decide) (by decide)]
  rw [show ((skipSize ["2024/01/02 03:04:06 recv 2 bytes", "00000000  ab cd"]).drop
      (hexCount (skipSize ["2024/01/02 03:04:06 recv 2 bytes", "00000000  ab cd"])))
      = ([] : List String) from by decide, runAll_nil]
  decide

/-- C1 (amended): on the example scenario the output is the one-element
array whose record carries the matching header's timestamp and whose data
is the base64 of ALL byte pairs the pair scan finds on the hex line —
including the four `00` pairs of the offset prefix — namely
`"AAAAAKvN"` = base64 of `00 00 00 00 ab cd`. -/
theorem c1_amended :
    parse_logs [("go_client/debug-1.log",
      ["2024/01/02 03:04:05 send tcp tag 1 len 4",
       "2024/01/02 03:04:06 recv udp tag 2 len 2",
       "2024/01/02 03:04:06 recv 2 bytes",
       "00000000  ab cd"])] =
      [⟨"2024/01/02 03:04:06", b64encode [0, 0, 0, 0, 171, 205]⟩] ∧
    byteFindall "00000000  ab cd" = [0, 0, 0, 0, 171, 205] ∧
    b64encode [0, 0, 0, 0, 171, 205] = "AAAAAKvN" := by
  refine ⟨?_, by decide, by decide⟩
  rw [parse_logs_single]
  rw [runAll_cons_notqual _ _ "2024/01/02 03:04:05" "send" "tcp" "1" "4"
    (by decide) (by decide)]
  rw [runAll_cons_qual _ _ "2024/01/02 03:04:06" "recv" "udp" "2" "2"
    (by decide) (by decide)]
  rw [show ((skipSize ["2024/01/02 03:04:06 recv 2 bytes", "00000000  ab cd"]).drop
      (hexCount (skipSize ["2024/01/02 03:04:06 recv 2 bytes", "00000000  ab cd"])))
      = ([] : List String) from by decide, runAll_nil]
  decide

/-- C2 (counterexample): the hex-dump line `00000000  de ad be ef` contains
the literal token sequence `de ad be ef` and follows a qualifying header,
yet the byte accumulator is `00 00 00 00 de ad be ef` (the offset pairs are
decoded too), not the 4 bytes `de ad be ef`, and the record's data is
`"AAAAAN6tvu8="`, not `"3q2+7w=="`. -/
theorem c2_counterexample :
    parse_logs [("go_client/debug-1.log",
      ["2024/01/02 03:04:06 recv udp tag 2 len 4",
       "00000000  de ad be ef"])] =
      [⟨"2024/01/02 03:04:06", "AAAAAN6tvu8="⟩] ∧
    hexBytes ["00000000  de ad be ef"] = [0, 0, 0, 0, 222, 173, 190, 239] ∧
    ([0, 0, 0, 0, 222, 173, 190, 239] : List Nat) ≠ [222, 173, 190, 239] ∧
    ("AAAAAN6tvu8=" : String) ≠ "3q2+7w==" := by
  refine ⟨?_, by decide, by decide, by decide⟩
  rw [parse_logs_single]
  rw [runAll_cons_qual _ _ "2024/01/02 03:04:06" "recv" "udp" "2" "4"
    (by decide) (by decide)]
  rw [show ((skipSize ["00000000  de ad be ef"]).drop
      (hexCount (skipSize ["00000000  de ad be ef"]))) = ([] : List String)
      from by decide, runAll_nil]
  decide

/-- C2 (amended): after a qualifying header, a hex line whose pairwise
scan yields exactly the bytes `de ad be ef` (e.g. the bare concatenated
line `deadbeef`, whose 8 leading hex characters are the data itself),
followed by no further hex lines, contributes exactly those 4 bytes to the
accumulator, and the emitted record's data is their base64 `"3q2+7w=="`;
in general every pair found on a hex line — offset pairs included — is
appended. -/
theorem c2_amended (hdr l : String) (rest : List String) (ts ln : String)
    (hev : eventMatch hdr = some (ts, "recv", "udp", "2", ln))
    (hhex : hexMatch l = true)
    (hbytes : byteFindall l = [222, 173, 190, 239])
    (hcnt : hexCount rest = 0) :
    runAll (hdr :: l :: rest) = ⟨ts, "3q2+7w=="⟩ :: runAll rest ∧
    hexBytes (l :: rest) = [222, 173, 190, 239] ∧
    b64encode [222, 173, 190, 239] = "3q2+7w==" := by
  have hsz : sizeMatch l = false := by
    rw [sizeMatch]
    exact sizeMatchL_false_of_hex l.toList hhex
  have hskip : skipSize (l :: rest) = l :: rest := by
    simp [skipSize, sizeSkipCount, hsz]
  have hb : hexBytes (l :: rest) = [222, 173, 190, 239] := by
    rw [show hexBytes (l :: rest) = byteFindall l ++ hexBytes rest
        from by simp [hexBytes, hhex],
      hbytes, hexBytes_eq_nil_of_hexCount_eq_zero rest hcnt]
    simp
  have hc : hexCount (l :: rest) = 1 := by
    simp [hexCount, hhex, hcnt]
  refine ⟨?_, hb, by decide⟩
  rw [runAll_cons_qual hdr (l :: rest) ts "recv" "udp" "2" ln hev (by decide),
    hskip, hb, hc]
  rw [show (l :: rest).drop 1 = rest from rfl]
  rw [show b64encode [222, 173, 190, 239] = "3q2+7w==" from by decide]

/-- C2 (amended, witness): concrete run — a qualifying header followed by
the bare hex line `deadbeef` yields the single record with data
`"3q2+7w=="`. -/
theorem c2_amended_witness :
    runAll ["2024/01/02 03:04:06 recv udp tag 2 len 4", "deadbeef"] =
      [⟨"2024/01/02 03:04:06", "3q2+7w=="⟩] := by
  have h := c2_amended "2024/01/02 03:04:06 recv udp tag 2 len 4" "deadbeef" []
    "2024/01/02 03:04:06" "4" (by decide) (by decide) (by decide) (by decide)
  rw [h.1, runAll_nil]

/-- C3 (counterexample): the line `ABCDEF01 ab cd` begins with 8
characters that are all hexadecimal when letter case is ignored, and it
follows a qualifying header, yet the scan treats it as a non-hex line:
no byte pairs are appended (the record's data is the empty base64), so
hex-line recognition is NOT case-insensitive. -/
theorem c3_counterexample :
    (("ABCDEF01 ab cd").toList.take 8).all specHexAnyCase = true ∧
    hexMatch "ABCDEF01 ab cd" = false ∧
    parse_logs [("go_client/debug-1.log",
      ["2024/01/02 03:04:06 recv udp tag 2 len 2", "ABCDEF01 ab cd"])] =
      [⟨"2024/01/02 03:04:06", ""⟩] := by
  refine ⟨by decide, by decide, ?_⟩
  rw [parse_logs_single]
  rw [runAll_cons_qual _ _ "2024/01/02 03:04:06" "recv" "udp" "2" "2"
    (by decide) (by decide)]
  rw [show ((skipSize ["ABCDEF01 ab cd"]).drop
      (hexCount (skipSize ["ABCDEF01 ab cd"]))) = (["ABCDEF01 ab cd"] : List String)
      from by decide]
  rw [runAll_cons_none _ _ (by decide), runAll_nil]
  decide

/-- C3 (amended): a line is treated as a Hex Dump Line iff its first 8
characters exist and are all LOWERCASE hexadecimal (`0`–`9` or `a`–`f`;
uppercase digits do not count); after a qualifying header, such a line has
all its byte pairs appended and consumption continues, and consumption
stops at the first line failing this lowercase test, which is handed back
to the header scan. -/
theorem c3_amended (hdr : String) (ts ln : String) (l : String)
    (rest : List String)
    (hev : eventMatch hdr = some (ts, "recv", "udp", "2", ln))
    (hsz : sizeMatch l = false) :
    (hexMatch l = true ↔ 8 ≤ l.toList.length ∧ ∀ c ∈ l.toList.take 8,
        (48 ≤ c.toNat ∧ c.toNat ≤ 57) ∨ (97 ≤ c.toNat ∧ c.toNat ≤ 102)) ∧
    runAll (hdr :: l :: rest) =
      (if hexMatch l then
        ⟨ts, b64encode (byteFindall l ++ hexBytes rest)⟩ ::
          runAll (rest.drop (hexCount rest))
      else ⟨ts, b64encode []⟩ :: runAll (l :: rest)) := by
  constructor
  · rw [hexMatch, hexMatchL_iff]
    constructor
    · rintro ⟨hlen, hall⟩
      exact ⟨hlen, fun c hc => (isLowerHex_iff c).mp (hall c hc)⟩
    · rintro ⟨hlen, hall⟩
      exact ⟨hlen, fun c hc => (isLowerHex_iff c).mpr (hall c hc)⟩
  · rw [runAll_cons_qual hdr (l :: rest) ts "recv" "udp" "2" ln hev (by decide)]
    rw [show skipSize (l :: rest) = l :: rest from by simp [skipSize, sizeSkipCount, hsz]]
    by_cases hx : hexMatch l
    · rw [if_pos hx]
      rw [show hexBytes (l :: rest) = byteFindall l ++ hexBytes rest
          from by simp [hexBytes, hx],
        show hexCount (l :: rest) = hexCount rest + 1 from by simp [hexCount, hx],
        show (l :: rest).drop (hexCount rest + 1) = rest.drop (hexCount rest) from rfl]
    · rw [if_neg hx]
      rw [show hexBytes (l :: rest) = [] from by simp [hexBytes, hx],
        show hexCount (l :: rest) = 0 from by simp [hexCount, hx],
        show (l :: rest).drop 0 = l :: rest from rfl]

/-- C3 (amended, witness): concrete instance — after a qualifying header,
the lowercase line `deadbeef` is consumed as hex (data `"3q2+7w=="`). -/
theorem c3_amended_witness :
    hexMatch "deadbeef" = true ∧
    runAll ["2024/01/02 03:04:07 recv udp tag 2 len 4", "deadbeef"] =
      [⟨"2024/01/02 03:04:07", "3q2+7w=="⟩] := by
  have h := c3_amended "2024/01/02 03:04:07 recv udp tag 2 len 4"
    "2024/01/02 03:04:07" "4" "deadbeef" [] (by decide) (by decide)
  refine ⟨by decide, ?_⟩
  rw [h.2]
  rw [if_pos (by decide : hexMatch "deadbeef" = true)]
  rw [show hexCount ([] : List String) = 0 from rfl,
    show (([] : List String)).drop 0 = [] from rfl, runAll_nil]
  decide

/-- C4: with more than 3 qualifying events among the input files, the
output is exactly the first 3 records of the uncapped scan taken in
file-sorted (lexicographic name) order then line order, so it has exactly
3 records; and once the output holds 3 records the per-file scan loop
consumes nothing further (`runCap` is the identity on the output). -/
theorem c4_cap (files : List (String × List String))
    (h : 3 < ((files.map fun f => countQual f.2).sum)) :
    parse_logs files =
      ((((sortFiles files).map Prod.snd).map runAll).flatten).take 3 ∧
    (parse_logs files).length = 3 ∧
    (∀ ls out, 3 ≤ List.length out → runCap ls out = out) := by
  refine ⟨parse_logs_eq files, ?_, ?_⟩
  · rw [parse_logs_eq files, List.length_take, List.length_flatten]
    have hsum : (((((sortFiles files).map Prod.snd).map runAll).map List.length).sum)
        = ((files.map fun f => countQual f.2).sum) := by
      rw [List.map_map, List.map_map]
      have hfun : ((List.length ∘ runAll) ∘ Prod.snd :
          String × List String → Nat) = fun f => countQual f.2 := by
        funext f
        simp [Function.comp, runAll_length]
      rw [hfun]
      exact List.Perm.sum_eq ((sortFiles_perm files).map _)
    rw [hsum]
    omega
  · intro ls out h3
    cases ls with
    | nil => exact runCap_nil out
    | cons l rest => exact runCap_cons_full l rest out h3

/-- C4 (witness): four qualifying events across two files give exactly 3
output records. -/
theorem c4_witness :
    (parse_logs
      [("go_client/debug-2.log",
        ["2024/01/02 03:04:08 recv udp tag 2 len 0",
         "2024/01/02 03:04:09 recv udp tag 2 len 0"]),
       ("go_client/debug-1.log",
        ["2024/01/02 03:04:05 recv udp tag 2 len 0",
         "2024/01/02 03:04:06 recv udp tag 2 len 0"])]).length = 3 :=
  (c4_cap _ (by decide)).2.1

/-- C5: every record the script outputs originates from an event-header
line, present in one of the input files, whose direction is `recv`,
protocol `udp`, and tag digit string `"2"`, with the record's timestamp
equal to that header's timestamp group. -/
theorem c5_filter (files : List (String × List String)) (r : Record)
    (hr : r ∈ parse_logs files) :
    ∃ f ∈ files, ∃ l ∈ f.2, ∃ ln,
      eventMatch l = some (r.timestamp, "recv", "udp", "2", ln) := by
  rw [parse_logs_eq] at hr
  have hr2 : r ∈ (((sortFiles files).map Prod.snd).map runAll).flatten :=
    List.take_subset _ _ hr
  obtain ⟨L, hL, hrL⟩ := List.mem_flatten.mp hr2
  rw [List.map_map] at hL
  obtain ⟨f, hf, hfL⟩ := List.mem_map.mp hL
  rw [← hfL] at hrL
  simp only [Function.comp] at hrL
  obtain ⟨l, hl, ln, hsrc⟩ := runAll_sources f.2 r hrL
  exact ⟨f, (sortFiles_perm files).mem_iff.mp hf, l, hl, ln, hsrc⟩

/-- C5 (witness): the record extracted from a concrete one-event file is
traced back to its qualifying `recv udp tag 2` header line. -/
theorem c5_witness :
    ∃ f ∈ [("go_client/debug-1.log",
        ["2024/01/02 03:04:06 recv udp tag 2 len 4", "deadbeef"])],
      ∃ l ∈ f.2, ∃ ln, eventMatch l =
        some ("2024/01/02 03:04:06", "recv", "udp", "2", ln) := by
  have hmem : (⟨"2024/01/02 03:04:06", "3q2+7w=="⟩ : Record) ∈
      parse_logs [("go_client/debug-1.log",
        ["2024/01/02 03:04:06 recv udp tag 2 len 4", "deadbeef"])] := by
    rw [parse_logs_single]
    rw [runAll_cons_qual _ _ "2024/01/02 03:04:06" "recv" "udp" "2" "4"
      (by decide) (by decide)]
    rw [show ((skipSize ["deadbeef"]).drop (hexCount (skipSize ["deadbeef"]))) =
        ([] : List String) from by decide, runAll_nil]
    decide
  exact c5_filter _ _ hmem

/-- C6 (counterexample): a qualifying header immediately followed by a
NON-HEX line — here a size-annotation line, which indeed fails the hex
test — need not yield an empty payload: if hex lines follow the size line,
the record's data is their (nonempty) base64, refuting the claim as
stated. -/
theorem c6_counterexample :
    sizeMatch "2024/01/02 03:04:06 recv 4 bytes" = true ∧
    hexMatch "2024/01/02 03:04:06 recv 4 bytes" = false ∧
    parse_logs [("go_client/debug-1.log",
      ["2024/01/02 03:04:06 recv udp tag 2 len 4",
       "2024/01/02 03:04:06 recv 4 bytes",
       "deadbeef"])] = [⟨"2024/01/02 03:04:06", "3q2+7w=="⟩] ∧
    ("3q2+7w==" : String) ≠ "" := by
  refine ⟨by decide, by decide, ?_, by decide⟩
  rw [parse_logs_single]
  rw [runAll_cons_qual _ _ "2024/01/02 03:04:06" "recv" "udp" "2" "4"
    (by decide) (by decide)]
  rw [show ((skipSize ["2024/01/02 03:04:06 recv 4 bytes", "deadbeef"]).drop
      (hexCount (skipSize ["2024/01/02 03:04:06 recv 4 bytes", "deadbeef"])))
      = ([] : List String) from by decide, runAll_nil]
  decide

/-- C6 (amended): a qualifying header immediately followed by a line that
is neither a size-annotation line nor a hex line yields a record whose
data is the base64 of zero bytes, the empty string; the non-matching line
is handed back to the header scan. -/
theorem c6_amended (hdr l : String) (rest : List String) (ts ln : String)
    (hev : eventMatch hdr = some (ts, "recv", "udp", "2", ln))
    (hsz : sizeMatch l = false) (hhx : hexMatch l = false) :
    runAll (hdr :: l :: rest) = ⟨ts, ""⟩ :: runAll (l :: rest) ∧
    b64encode [] = "" ∧
    (∀ nm, (parse_logs [(nm, hdr :: l :: rest)]).head? = some ⟨ts, ""⟩) := by
  have h1 : runAll (hdr :: l :: rest) = ⟨ts, ""⟩ :: runAll (l :: rest) := by
    rw [runAll_cons_qual hdr (l :: rest) ts "recv" "udp" "2" ln hev (by decide)]
    rw [show skipSize (l :: rest) = l :: rest from by simp [skipSize, sizeSkipCount, hsz]]
    rw [show hexBytes (l :: rest) = [] from by simp [hexBytes, hhx],
      show hexCount (l :: rest) = 0 from by simp [hexCount, hhx],
      show (l :: rest).drop 0 = l :: rest from rfl]
    rw [show b64encode [] = "" from by decide]
  refine ⟨h1, by decide, ?_⟩
  intro nm
  rw [parse_logs_single, h1]
  rfl

/-- C6 (amended, witness): concrete empty-payload run — a qualifying
header followed by a line that is neither size nor hex gives data `""`. -/
theorem c6_amended_witness :
    runAll ["2024/01/02 03:04:06 recv udp tag 2 len 2", "end of capture"] =
      [⟨"2024/01/02 03:04:06", ""⟩] := by
  have h := c6_amended "2024/01/02 03:04:06 recv udp tag 2 len 2"
    "end of capture" [] "2024/01/02 03:04:06" "2" (by decide) (by decide) (by decide)
  rw [h.1, runAll_cons_none _ _ (by decide), runAll_nil]

/-- C7: a qualifying header immediately followed by a size-annotation
line, itself followed by further lines, produces a record whose data is
the base64 of exactly the bytes decoded from the following hex-dump run:
the size line is skipped, contributes no bytes, and can never satisfy the
hex-line pattern itself. -/
theorem c7_size_skip (hdr s : String) (rest : List String) (ts ln : String)
    (hev : eventMatch hdr = some (ts, "recv", "udp", "2", ln))
    (hsz : sizeMatch s = true) :
    runAll (hdr :: s :: rest) =
      ⟨ts, b64encode (hexBytes rest)⟩ :: runAll (rest.drop (hexCount rest)) ∧
    hexMatch s = false ∧
    (∀ nm, (parse_logs [(nm, hdr :: s :: rest)]).head? =
      some ⟨ts, b64encode (hexBytes rest)⟩) := by
  have h1 : runAll (hdr :: s :: rest) =
      ⟨ts, b64encode (hexBytes rest)⟩ :: runAll (rest.drop (hexCount rest)) := by
    rw [runAll_cons_qual hdr (s :: rest) ts "recv" "udp" "2" ln hev (by decide)]
    rw [show skipSize (s :: rest) = rest from by simp [skipSize, sizeSkipCount, hsz]]
  have h2 : hexMatch s = false := by
    rw [hexMatch]
    rw [sizeMatch] at hsz
    exact hexMatchL_false_of_size s.toList hsz
  refine ⟨h1, h2, ?_⟩
  intro nm
  rw [parse_logs_single, h1]
  rfl

/-- C7 (witness): concrete run — header, size line, then `deadbeef`: the
record's data is the base64 of the hex line's bytes only. -/
theorem c7_witness :
    runAll ["2024/01/02 03:04:06 recv udp tag 2 len 4",
            "2024/01/02 03:04:06 recv 4 bytes", "deadbeef"] =
      [⟨"2024/01/02 03:04:06", "3q2+7w=="⟩] ∧
    hexMatch "2024/01/02 03:04:06 recv 4 bytes" = false := by
  have h := c7_size_skip "2024/01/02 03:04:06 recv udp tag 2 len 4"
    "2024/01/02 03:04:06 recv 4 bytes" ["deadbeef"] "2024/01/02 03:04:06" "4"
    (by decide) (by decide)
  refine ⟨?_, h.2.1⟩
  rw [h.1]
  rw [show (["deadbeef"] : List String).drop (hexCount ["deadbeef"]) = []
    from by decide, runAll_nil]
  decide

/-- C8: if any listed input file is unreadable the run aborts with the
propagated I/O error, wherever that file falls in the sorted order; a file
that opens but contains no qualifying events is not an error and
contributes zero records to the output. -/
theorem c8_io (files : List (String × Except Unit (List String))) :
    ((∃ f ∈ files, f.2 = Except.error ()) → parse_logs_io files = Except.error ()) ∧
    (∀ lines out, countQual lines = 0 → runCap lines out = out) := by
  constructor
  · rintro ⟨f, hf, hferr⟩
    show runFilesIO _ [] = _
    have h1 : f ∈ sortFiles files := (sortFiles_perm files).mem_iff.mpr hf
    have h2 : f.2 ∈ (sortFiles files).map Prod.snd := List.mem_map_of_mem _ h1
    rw [hferr] at h2
    exact runFilesIO_error _ [] h2
  · intro lines out h0
    rw [runCap_eq]
    have hnil : runAll lines = [] := by
      have hl := runAll_length lines
      rw [h0] at hl
      exact List.eq_nil_of_length_eq_zero hl
    rw [hnil]
    simp

/-- C8 (witness): an unreadable file aborts the run; a readable file with
no qualifying events leaves the output untouched. -/
theorem c8_witness :
    parse_logs_io [("go_client/debug-1.log", Except.error ())] =
      Except.error () ∧
    runCap ["nothing matches here"] [] = [] := by
  refine ⟨(c8_io _).1 ⟨("go_client/debug-1.log", Except.error ()), by simp, rfl⟩,
    (c8_io []).2 ["nothing matches here"] [] (by decide)⟩

/-- C9: the tag filter compares the tag's digit string for exact equality
with `"2"`: any header whose tag group is a different digit string fails
the filter and produces no record, even when that string denotes the
integer 2 (such as `"02"`). -/
theorem c9_tag_exact (l : String) (rest : List String) (ts d p tg ln : String)
    (hev : eventMatch l = some (ts, d, p, tg, ln)) (htg : tg ≠ "2") :
    isQualifying l = false ∧ runAll (l :: rest) = runAll rest := by
  have hq : (d == "recv" && p == "udp" && tg == "2") = false := by
    have h2 : (tg == "2") = false := beq_eq_false_iff_ne.mpr htg
    simp [h2]
  exact ⟨isQualifying_false_of_notqual l ts d p tg ln hev hq,
    runAll_cons_notqual l rest ts d p tg ln hev hq⟩

/-- C9 (witness): the header with tag written `02` — integer value 2 —
parses, is rejected, and yields no record even with hex data following. -/
theorem c9_witness :
    eventMatch "2024/01/02 03:04:05 recv udp tag 02 len 4" =
      some ("2024/01/02 03:04:05", "recv", "udp", "02", "4") ∧
    ("02".toList.foldl (fun a c => a * 10 + (c.toNat - 48)) 0) = 2 ∧
    runAll ["2024/01/02 03:04:05 recv udp tag 02 len 4", "deadbeef"] = [] := by
  refine ⟨by decide, by decide, ?_⟩
  rw [(c9_tag_exact "2024/01/02 03:04:05 recv udp tag 02 len 4" ["deadbeef"]
    "2024/01/02 03:04:05" "recv" "udp" "02" "4" (by decide) (by decide)).2]
  rw [runAll_cons_none _ _ (by decide), runAll_nil]

/-- C10: reaching the record cap does not stop file-level I/O: with the
output already holding 3 records, every remaining file is still opened —
so an unreadable remaining file still aborts the run with the I/O error —
while no lines of readable remaining files are scanned (`runCap` is the
identity) and the output is returned unchanged. -/
theorem c10_cap_io (fs2 : List (Except Unit (List String))) (out : List Record)
    (h3 : 3 ≤ out.length) :
    (∀ fs1, (∀ e ∈ fs1, ∃ ls, e = Except.ok ls) →
        runFilesIO (fs1 ++ Except.error () :: fs2) out = Except.error ()) ∧
    (∀ fs1, (∀ e ∈ fs1, ∃ ls, e = Except.ok ls) →
        runFilesIO fs1 out = Except.ok out) ∧
    (∀ ls, runCap ls out = out) := by
  have hnoop : ∀ ls, runCap ls out = out := by
    intro ls
    cases ls with
    | nil => exact runCap_nil out
    | cons l rest => exact runCap_cons_full l rest out h3
  refine ⟨?_, ?_, hnoop⟩
  · intro fs1
    induction fs1 with
    | nil => intro _; rfl
    | cons e fs1 ih =>
      intro hok
      obtain ⟨ls, hls⟩ := hok e (List.mem_cons_self e fs1)
      subst hls
      show runFilesIO (fs1 ++ Except.error () :: fs2) (runCap ls out) = Except.error ()
      rw [hnoop ls]
      exact ih fun x hx => hok x (List.mem_cons_of_mem _ hx)
  · intro fs1
    induction fs1 with
    | nil => intro _; rfl
    | cons e fs1 ih =>
      intro hok
      obtain ⟨ls, hls⟩ := hok e (List.mem_cons_self e fs1)
      subst hls
      show runFilesIO fs1 (runCap ls out) = Except.ok out
      rw [hnoop ls]
      exact ih fun x hx => hok x (List.mem_cons_of_mem _ hx)

/-- C10 (witness): with the cap already reached, a later unreadable file
still aborts the run, and a readable file full of qualifying events is
left unscanned. -/
theorem c10_witness :
    runFilesIO [Except.ok ["junk"], Except.error (), Except.ok ["x"]]
      [⟨"t1", "d1"⟩, ⟨"t2", "d2"⟩, ⟨"t3", "d3"⟩] = Except.error () ∧
    runCap ["2024/01/02 03:04:06 recv udp tag 2 len 2", "deadbeef"]
      [⟨"t1", "d1"⟩, ⟨"t2", "d2"⟩, ⟨"t3", "d3"⟩] =
      [⟨"t1", "d1"⟩, ⟨"t2", "d2"⟩, ⟨"t3", "d3"⟩] := by
  have h := c10_cap_io [Except.ok ["x"]]
    [⟨"t1", "d1"⟩, ⟨"t2", "d2"⟩, ⟨"t3", "d3"⟩] (by decide)
  refine ⟨?_, h.2.2 _⟩
  have h1 := h.1 [Except.ok ["junk"]] ?_
  · exact h1
  · rintro e he
    rw [List.mem_singleton] at he
    exact ⟨["junk"], he⟩

end ParseLogs
